import Mathlib

/-!
Verification of the `eventsource-stream` SSE parser (`src/lib.rs`).

The Rust crate turns a stream of byte chunks into a stream of parsed SSE
`Event`s.  This file gives a shallow embedding of the crate's data model
(`Event`, `Field`, `State`, `ParseError`, `Error`), of the per-byte parsing
state machine inside `EventStreamTransformer::poll_next`, and of the driving
poll loop itself, and proves the specified properties about them.

Bytes are modelled as natural numbers (`u8` values, which never overflow in
this code: bytes are only compared and stored).  Rust `String`s are UTF-8
validated byte vectors, so string fields are modelled as byte lists together
with an explicit UTF-8 validity check mirroring `String::from_utf8`.
-/

deriving instance DecidableEq for Except

namespace EventsourceStream

/-- A byte string (each entry is a `u8` value). -/
abbrev Bytes := List Nat

/-- Whether a byte is a UTF-8 continuation byte (`0x80..=0xBF`). -/
def isCont (b : Nat) : Bool := 0x80 ≤ b && b ≤ 0xBF

/-- UTF-8 validity of a byte string, mirroring Rust's `String::from_utf8`
success condition (RFC 3629: rejects overlong encodings, surrogates and
code points above `U+10FFFF`). -/
def utf8Valid : Bytes → Bool
  | [] => true
  | b :: rest =>
    if b ≤ 0x7F then utf8Valid rest
    else if 0xC2 ≤ b && b ≤ 0xDF then
      match rest with
      | c1 :: r => isCont c1 && utf8Valid r
      | [] => false
    else if b = 0xE0 then
      match rest with
      | c1 :: c2 :: r => (0xA0 ≤ c1 && c1 ≤ 0xBF) && isCont c2 && utf8Valid r
      | _ => false
    else if 0xE1 ≤ b && b ≤ 0xEC then
      match rest with
      | c1 :: c2 :: r => isCont c1 && isCont c2 && utf8Valid r
      | _ => false
    else if b = 0xED then
      match rest with
      | c1 :: c2 :: r => (0x80 ≤ c1 && c1 ≤ 0x9F) && isCont c2 && utf8Valid r
      | _ => false
    else if 0xEE ≤ b && b ≤ 0xEF then
      match rest with
      | c1 :: c2 :: r => isCont c1 && isCont c2 && utf8Valid r
      | _ => false
    else if b = 0xF0 then
      match rest with
      | c1 :: c2 :: c3 :: r =>
        (0x90 ≤ c1 && c1 ≤ 0xBF) && isCont c2 && isCont c3 && utf8Valid r
      | _ => false
    else if 0xF1 ≤ b && b ≤ 0xF3 then
      match rest with
      | c1 :: c2 :: c3 :: r => isCont c1 && isCont c2 && isCont c3 && utf8Valid r
      | _ => false
    else if b = 0xF4 then
      match rest with
      | c1 :: c2 :: c3 :: r =>
        (0x80 ≤ c1 && c1 ≤ 0x8F) && isCont c2 && isCont c3 && utf8Valid r
      | _ => false
    else false

/-- Whether a byte is an ASCII digit. -/
def isDigit (b : Nat) : Bool := 48 ≤ b && b ≤ 57

/-- Decimal value of a digit string. -/
def foldDigits (l : Bytes) : Nat := l.foldl (fun acc b => acc * 10 + (b - 48)) 0

/-- Rust's `str::parse::<u64>()` on the bytes of a (UTF-8 valid) string:
an optional leading `+`, then one or more ASCII digits, with the value
required to fit in a `u64`.  Any other input fails. -/
def parseU64 (s : Bytes) : Option Nat :=
  let ds := match s with
    | 43 :: rest => rest
    | _ => s
  if ds = [] then none
  else if ds.all isDigit then
    let v := foldDigits ds
    if v < 2 ^ 64 then some v else none
  else none

/-- ASCII byte string of a Lean string literal (used only for ASCII inputs,
where code points and UTF-8 bytes coincide). -/
def asciiBytes (s : String) : Bytes := s.data.map Char.toNat

/-- The `Field` enum of `src/lib.rs`. -/
inductive Field where
  | event
  | data
  | id
  | retry
deriving Repr, DecidableEq

/-- The parser `State` enum of `src/lib.rs`. -/
inductive State where
  | ReadingField
  | ReadingValue
  | NextLine
  | Closed
deriving Repr, DecidableEq

/-- The `Event` struct of `src/lib.rs`.  `event` holds the bytes of the Rust
`String`, `retryMs` the argument of `Duration::from_millis`.  The Rust
`Default` instance corresponds to the field defaults here. -/
structure Event where
  event : Option Bytes := none
  data : Bytes := []
  id : Option Bytes := none
  retryMs : Option Nat := none
deriving Repr, DecidableEq

/-- The `ParseError` enum of `src/lib.rs`. -/
inductive ParseError where
  | InvalidField (bytes : Bytes)
  | InvalidEvent (bytes : Bytes)
  | InvalidRetry (bytes : Bytes)
  | UnexpectedEndOfLine (bytes : Bytes)
  | EmptyField
deriving Repr, DecidableEq

/-- The public `Error<T>` enum of `src/lib.rs`: parse errors wrapped next to
transport errors of the wrapped stream. -/
inductive Error (ε : Type) where
  | Parse (e : ParseError)
  | Transport (e : ε)
deriving Repr, DecidableEq

/-- `Field::from_bytes` of `src/lib.rs`: UTF-8 decode, reject the empty
string, then match exactly one of the four field names. -/
def Field.from_bytes (bytes : Bytes) : Except ParseError Field :=
  if utf8Valid bytes then
    if bytes = [] then .error .EmptyField
    else if bytes = asciiBytes "event" then .ok .event
    else if bytes = asciiBytes "data" then .ok .data
    else if bytes = asciiBytes "id" then .ok .id
    else if bytes = asciiBytes "retry" then .ok .retry
    else .error (.InvalidField bytes)
  else .error (.InvalidField bytes)

/-- `Event::is_empty` of `src/lib.rs`: equality with the default event. -/
def Event.is_empty (e : Event) : Bool := e = {}

/-- `Event::set_field` of `src/lib.rs`.  On an error the event is returned
unchanged, matching the early `?` return in Rust before any mutation. -/
def Event.set_field (e : Event) (field : Option Field) (data : Bytes) :
    Except ParseError Event :=
  match field with
  | some .event =>
    if utf8Valid data then .ok { e with event := some data }
    else .error (.InvalidEvent data)
  | some .data => .ok { e with data := e.data ++ data }
  | some .id => .ok { e with id := some data }
  | some .retry =>
    if utf8Valid data then
      match parseU64 data with
      | some ms => .ok { e with retryMs := some ms }
      | none => .error (.InvalidRetry data)
    else .error (.InvalidRetry data)
  | none => .ok e

/-- The mutable parsing state owned by `EventStreamTransformer` (everything
except the wrapped stream).  The Rust `results: VecDeque` is used as a FIFO
queue via `push_front`/`pop_back`; we represent it in pop order: the head of
the list is the oldest entry (Rust's back, the next one `pop_back` returns),
and `push_front` appends at the end of the list. -/
structure Machine where
  buffer : Bytes := []
  field : Option Field := none
  event : Event := {}
  state : State := .ReadingField
  results : List (Except ParseError Event) := []
deriving Repr, DecidableEq

/-- `VecDeque::push_front` in the pop-order representation: the new entry is
the newest, so it goes to the end of the list. -/
def pushFront {α : Type} (q : List α) (x : α) : List α := q ++ [x]

/-- `VecDeque::pop_back` in the pop-order representation: the oldest entry is
the head of the list. -/
def popBack {α : Type} : List α → Option (α × List α)
  | [] => none
  | x :: xs => some (x, xs)

/-- The machine state built by `EventStreamTransformer::wrap`. -/
def initMachine : Machine := {}

/-- One iteration of the per-byte `match byte` dispatch inside
`EventStreamTransformer::poll_next`.  The `State::Closed` arms are
`unreachable!()` in Rust; they are never hit (see `processBytes_state_ne_closed`)
and are modelled as the identity. -/
def step (m : Machine) (byte : Nat) : Machine :=
  if byte = 10 then
    match m.state with
    | .ReadingField =>
      let m1 := if m.buffer = [] then m
        else { m with results := pushFront m.results (.error (.UnexpectedEndOfLine m.buffer)), buffer := [] }
      { m1 with field := none, state := .NextLine }
    | .ReadingValue =>
      match m.event.set_field m.field m.buffer with
      | .ok e => { m with event := e, field := none, buffer := [], state := .NextLine }
      | .error err =>
        { m with results := pushFront m.results (.error err), field := none, buffer := [], state := .NextLine }
    | .NextLine =>
      { m with results := pushFront m.results (.ok m.event), event := {}, buffer := [], field := none, state := .ReadingField }
    | .Closed => m
  else if byte = 58 then
    match m.state with
    | .ReadingField =>
      match Field.from_bytes m.buffer with
      | .ok f => { m with field := some f, buffer := [], state := .ReadingValue }
      | .error e =>
        { m with results := pushFront m.results (.error e), buffer := [], state := .ReadingValue }
    | .ReadingValue => { m with buffer := m.buffer ++ [byte] }
    | .NextLine =>
      { m with results := pushFront m.results (.error .EmptyField), state := .ReadingValue }
    | .Closed => m
  else
    let m1 := if m.state = .NextLine then { m with state := .ReadingField } else m
    { m1 with buffer := m1.buffer ++ [byte] }

/-- The `for byte in chunk.as_ref()` loop: feed every byte of a chunk. -/
def processBytes (m : Machine) (bytes : Bytes) : Machine := bytes.foldl step m

/-- One answer of `poll_next` on the wrapped source, as seen by the
transformer: `Poll::Pending`, `Poll::Ready(Some(Ok(chunk)))`,
`Poll::Ready(Some(Err(e)))` or `Poll::Ready(None)`. -/
inductive SourcePoll (ε : Type) where
  | pending
  | chunk (bytes : Bytes)
  | fail (e : ε)
  | done
deriving Repr, DecidableEq

/-- The transformer together with its wrapped source.  The source is modelled
as the script of its successive poll answers; an exhausted script keeps
answering `Poll::Ready(None)`, like a well-behaved fused stream. -/
structure Transformer (ε : Type) where
  machine : Machine
  source : List (SourcePoll ε)
deriving Repr, DecidableEq

/-- One answer of the transformer's own `poll_next`: `Poll::Pending`,
`Poll::Ready(Some(item))` or `Poll::Ready(None)` (`closedEnd`). -/
inductive PollResult (ε : Type) where
  | pending
  | ready (item : Except (Error ε) Event)
  | closedEnd
deriving Repr, DecidableEq

/-- The `res.map_err(Error::Parse)` applied to every queue entry surfaced to
the caller. -/
def toItem {ε : Type} (r : Except ParseError Event) : Except (Error ε) Event :=
  r.mapError Error.Parse

/-- The `Poll::Ready(None)` arm of the inner match in `poll_next` before the
queue pop: flush the in-progress event if it is non-empty and close. -/
def closeOnExhaust (m : Machine) : Machine :=
  let m1 := if m.event.is_empty then m
    else { m with results := pushFront m.results (.ok m.event), event := {} }
  { m1 with state := .Closed }

/-- The `loop` in `EventStreamTransformer::poll_next`: poll the source, and
on a chunk feed its bytes and immediately poll the source again. -/
def pollLoop {ε : Type} (m : Machine) :
    List (SourcePoll ε) → PollResult ε × Transformer ε
  | .pending :: rest =>
    match popBack m.results with
    | some (r, rs) => (.ready (toItem r), ⟨{ m with results := rs }, rest⟩)
    | none => (.pending, ⟨m, rest⟩)
  | .done :: rest =>
    match popBack (closeOnExhaust m).results with
    | some (r, rs) => (.ready (toItem r), ⟨{ closeOnExhaust m with results := rs }, rest⟩)
    | none => (.closedEnd, ⟨closeOnExhaust m, rest⟩)
  | .fail e :: rest => (.ready (.error (.Transport e)), ⟨m, rest⟩)
  | .chunk bytes :: rest => pollLoop (processBytes m bytes) rest
  | [] =>
    match popBack (closeOnExhaust m).results with
    | some (r, rs) => (.ready (toItem r), ⟨{ closeOnExhaust m with results := rs }, []⟩)
    | none => (.closedEnd, ⟨closeOnExhaust m, []⟩)

/-- `EventStreamTransformer::poll_next`: drain one queued result if any, then
end the stream if closed, otherwise enter the poll loop. -/
def poll_next {ε : Type} (t : Transformer ε) : PollResult ε × Transformer ε :=
  match popBack t.machine.results with
  | some (r, rs) => (.ready (toItem r), ⟨{ t.machine with results := rs }, t.source⟩)
  | none =>
    if t.machine.state = .Closed then (.closedEnd, t)
    else pollLoop t.machine t.source

/-- Termination measure for the repeated-poll driver: queued results plus one
pending "close" step while the machine is still open. -/
def measure2 {ε : Type} (t : Transformer ε) : Nat :=
  t.machine.results.length + (if t.machine.state = State.Closed then 0 else 1)

theorem popBack_eq_some {α : Type} {l : List α} {x : α} {rs : List α}
    (h : popBack l = some (x, rs)) : l = x :: rs := by
  cases l with
  | nil => simp [popBack] at h
  | cons a as =>
    simp [popBack] at h
    obtain ⟨h1, h2⟩ := h
    rw [h1, h2]

theorem popBack_eq_none {α : Type} {l : List α} (h : popBack l = none) : l = [] := by
  cases l with
  | nil => rfl
  | cons a as => simp [popBack] at h

theorem closeOnExhaust_state (m : Machine) : (closeOnExhaust m).state = .Closed := by
  unfold closeOnExhaust
  split <;> rfl

theorem closeOnExhaust_results_le (m : Machine) :
    (closeOnExhaust m).results.length ≤ m.results.length + 1 := by
  unfold closeOnExhaust
  split
  · simp
  · simp [pushFront]

theorem pollLoop_dec {ε : Type} :
    ∀ (src : List (SourcePoll ε)) (m : Machine) (r : PollResult ε) (t2 : Transformer ε),
    pollLoop m src = (r, t2) → r ≠ .closedEnd →
    t2.source.length < src.length ∨
      (t2.source.length = src.length ∧ measure2 t2 < m.results.length + 1) := by
  intro src
  induction src with
  | nil =>
    intro m r t2 h hr
    right
    unfold pollLoop at h
    cases hp : popBack (closeOnExhaust m).results with
    | none => rw [hp] at h; cases h; exact absurd rfl hr
    | some pr =>
      obtain ⟨x, rs⟩ := pr
      rw [hp] at h
      cases h
      have hcons := popBack_eq_some hp
      have hlen : rs.length + 1 = (closeOnExhaust m).results.length := by
        rw [hcons]; simp
      have hle := closeOnExhaust_results_le m
      constructor
      · rfl
      · simp only [measure2]
        simp [closeOnExhaust_state]
        omega
  | cons s rest ih =>
    intro m r t2 h hr
    cases s with
    | pending =>
      unfold pollLoop at h
      cases hp : popBack m.results with
      | none => rw [hp] at h; cases h; left; simp
      | some pr => obtain ⟨x, rs⟩ := pr; rw [hp] at h; cases h; left; simp
    | done =>
      unfold pollLoop at h
      cases hp : popBack (closeOnExhaust m).results with
      | none => rw [hp] at h; cases h; exact absurd rfl hr
      | some pr => obtain ⟨x, rs⟩ := pr; rw [hp] at h; cases h; left; simp
    | fail e =>
      unfold pollLoop at h
      cases h
      left; simp
    | chunk c =>
      unfold pollLoop at h
      rcases ih (processBytes m c) r t2 h hr with h1 | ⟨h1, _⟩
      · left; exact Nat.lt_trans h1 (by simp)
      · left; rw [h1]; simp

theorem poll_next_dec {ε : Type} (t : Transformer ε) (r : PollResult ε) (t2 : Transformer ε)
    (h : poll_next t = (r, t2)) (hr : r ≠ .closedEnd) :
    t2.source.length < t.source.length ∨
      (t2.source.length = t.source.length ∧ measure2 t2 < measure2 t) := by
  unfold poll_next at h
  cases hp : popBack t.machine.results with
  | some pr =>
    obtain ⟨x, rs⟩ := pr
    rw [hp] at h
    cases h
    right
    refine ⟨rfl, ?_⟩
    have hcons := popBack_eq_some hp
    simp only [measure2]
    have : ({ t.machine with results := rs } : Machine).state = t.machine.state := rfl
    rw [this, hcons]
    simp
  | none =>
    rw [hp] at h
    by_cases hc : t.machine.state = State.Closed
    · rw [if_pos hc] at h
      cases h
      exact absurd rfl hr
    · rw [if_neg hc] at h
      rcases pollLoop_dec t.source t.machine r t2 h hr with h1 | ⟨h1, h2⟩
      · left; exact h1
      · right
        refine ⟨h1, ?_⟩
        have : measure2 t = t.machine.results.length + 1 := by
          simp [measure2, hc]
        omega

set_option linter.unusedVariables false in
/-- Repeatedly call `poll_next` until the stream signals end-of-stream,
recording every `Poll::Ready(Some(item))`.  This is the full item sequence a
caller draining the transformer observes (`Poll::Pending` answers make no
progress for a scripted source beyond consuming its script entry). -/
def run {ε : Type} (t : Transformer ε) : List (Except (Error ε) Event) :=
  match h : poll_next t with
  | (.closedEnd, _) => []
  | (.pending, t2) => run t2
  | (.ready item, t2) => item :: run t2
termination_by (t.source.length, measure2 t)
decreasing_by
  · rcases poll_next_dec t _ _ h (by simp) with h1 | ⟨h1, h2⟩
    · exact Prod.Lex.left _ _ h1
    · rw [h1]; exact Prod.Lex.right _ h2
  · rcases poll_next_dec t _ _ h (by simp) with h1 | ⟨h1, h2⟩
    · exact Prod.Lex.left _ _ h1
    · rw [h1]; exact Prod.Lex.right _ h2

theorem run_eq_nil {ε : Type} {t t2 : Transformer ε}
    (h : poll_next t = (.closedEnd, t2)) : run t = [] := by
  conv_lhs => unfold run
  split <;> simp_all

theorem run_eq_pending {ε : Type} {t t2 : Transformer ε}
    (h : poll_next t = (.pending, t2)) : run t = run t2 := by
  conv_lhs => unfold run
  split <;> simp_all

theorem run_eq_cons {ε : Type} {t t2 : Transformer ε} {item : Except (Error ε) Event}
    (h : poll_next t = (.ready item, t2)) : run t = item :: run t2 := by
  conv_lhs => unfold run
  split <;> simp_all

/-- Once the machine is closed, the remaining pulls just drain the queue in
FIFO order and then signal end-of-stream; the source is never polled. -/
theorem run_closed {ε : Type} :
    ∀ (rs : List (Except ParseError Event)) (m : Machine) (src : List (SourcePoll ε)),
    m.state = .Closed →
    run (⟨{ m with results := rs }, src⟩ : Transformer ε) = rs.map toItem := by
  intro rs
  induction rs with
  | nil =>
    intro m src hm
    have h : poll_next (⟨{ m with results := [] }, src⟩ : Transformer ε) =
        (.closedEnd, ⟨{ m with results := [] }, src⟩) := by
      simp [poll_next, popBack, hm]
    rw [run_eq_nil h]
    rfl
  | cons x xs ih =>
    intro m src hm
    have h : poll_next (⟨{ m with results := x :: xs }, src⟩ : Transformer ε) =
        (.ready (toItem x), ⟨{ m with results := xs }, src⟩) := by
      simp [poll_next, popBack]
    rw [run_eq_cons h, ih m src hm]
    rfl

@[simp] theorem Event.is_empty_iff (e : Event) : e.is_empty = true ↔ e = {} := by
  simp [Event.is_empty]

/-- The poll loop feeds consecutive chunks into the machine without pausing:
its effect on a prefix of chunk deliveries is a fold of `processBytes`. -/
theorem pollLoop_chunks {ε : Type} :
    ∀ (cs : List Bytes) (m : Machine) (rest : List (SourcePoll ε)),
    pollLoop m (cs.map .chunk ++ rest) = pollLoop (cs.foldl processBytes m) rest := by
  intro cs
  induction cs with
  | nil => intro m rest; rfl
  | cons c cs ih =>
    intro m rest
    show pollLoop (processBytes m c) (cs.map .chunk ++ rest) = _
    simp only [List.foldl_cons]
    exact ih (processBytes m c) rest

theorem foldl_processBytes_join :
    ∀ (cs : List Bytes) (m : Machine), cs.foldl processBytes m = processBytes m cs.flatten := by
  intro cs
  induction cs with
  | nil => intro m; rfl
  | cons c cs ih =>
    intro m
    simp only [List.foldl_cons, List.flatten_cons]
    rw [ih (processBytes m c)]
    simp [processBytes, List.foldl_append]

/-- Complete characterization of the observed item sequence for a source that
delivers the given chunks and then ends: everything the byte machine queued,
in FIFO order, followed by the terminal flush of a non-empty in-progress
event. -/
theorem run_chunks_eq {ε : Type} (cs : List Bytes) :
    run (⟨initMachine, cs.map .chunk ++ [.done]⟩ : Transformer ε) =
      (closeOnExhaust (processBytes initMachine cs.flatten)).results.map toItem := by
  have h0 : poll_next (⟨initMachine, cs.map .chunk ++ [.done]⟩ : Transformer ε) =
      pollLoop initMachine (cs.map .chunk ++ [.done]) := rfl
  rw [pollLoop_chunks, foldl_processBytes_join] at h0
  cases hp : popBack (closeOnExhaust (processBytes initMachine cs.flatten)).results with
  | none =>
    have hnil := popBack_eq_none hp
    have hpl : pollLoop (ε := ε) (processBytes initMachine cs.flatten) [.done] =
        (.closedEnd, ⟨closeOnExhaust (processBytes initMachine cs.flatten), []⟩) := by
      unfold pollLoop
      rw [hp]
    rw [hpl] at h0
    rw [run_eq_nil h0, hnil]
    rfl
  | some pr =>
    obtain ⟨r, rs⟩ := pr
    have hcons := popBack_eq_some hp
    have hpl : pollLoop (ε := ε) (processBytes initMachine cs.flatten) [.done] =
        (.ready (toItem r),
          ⟨{ closeOnExhaust (processBytes initMachine cs.flatten) with results := rs }, []⟩) := by
      unfold pollLoop
      rw [hp]
    rw [hpl] at h0
    rw [run_eq_cons h0,
      run_closed rs (closeOnExhaust (processBytes initMachine cs.flatten)) []
        (closeOnExhaust_state _),
      hcons]
    rfl

@[simp] theorem toItem_ok {ε : Type} (e : Event) :
    toItem (ε := ε) (.ok e) = .ok e := rfl

@[simp] theorem toItem_error {ε : Type} (p : ParseError) :
    toItem (ε := ε) (.error p) = .error (.Parse p) := rfl

/-- C1: for every byte sequence and every splitting of it into chunks, the
transformer driven to exhaustion produces the same ordered item sequence
(events and parse errors alike) as for the unsplit sequence delivered as one
chunk. -/
theorem chunk_boundary_invariance (chunks : List Bytes) :
    run (⟨initMachine, chunks.map .chunk ++ [.done]⟩ : Transformer Unit) =
      run (⟨initMachine, [.chunk chunks.flatten, .done]⟩ : Transformer Unit) := by
  rw [run_chunks_eq chunks]
  have h2 := run_chunks_eq (ε := Unit) [chunks.flatten]
  simp only [List.map_cons, List.map_nil, List.cons_append, List.nil_append,
    List.flatten_cons, List.flatten_nil, List.append_nil] at h2
  rw [h2]

/-- C5: when the wrapped source is exhausted, a non-empty in-progress event is
emitted exactly once, as the final item before end-of-stream; an empty one is
dropped; and the machine state becomes `Closed` on the pull that observes
exhaustion. -/
theorem exhaustion_flush_spec (bytes : Bytes) :
    (run (⟨initMachine, [.chunk bytes, .done]⟩ : Transformer Unit) =
      (processBytes initMachine bytes).results.map toItem ++
        (if (processBytes initMachine bytes).event = {} then []
         else [Except.ok (processBytes initMachine bytes).event])) ∧
    (∀ (m : Machine) (rest : List (SourcePoll Unit)),
      ((pollLoop m (.done :: rest)).2).machine.state = .Closed) := by
  constructor
  · have h := run_chunks_eq (ε := Unit) [bytes]
    simp only [List.map_cons, List.map_nil, List.cons_append, List.nil_append,
      List.flatten_cons, List.flatten_nil, List.append_nil] at h
    refine h.trans ?_
    by_cases he : (processBytes initMachine bytes).event = {}
    · simp [closeOnExhaust, Event.is_empty, he]
    · simp [closeOnExhaust, Event.is_empty, he, pushFront]
  · intro m rest
    cases hp : popBack (closeOnExhaust m).results with
    | none => simp [pollLoop, hp, closeOnExhaust_state]
    | some pr =>
      obtain ⟨r, rs⟩ := pr
      simp [pollLoop, hp, closeOnExhaust_state]

/-- C9: when the inner source reports a transport failure the failure is
returned at once as a `Transport` error (never wrapped as a parse error), it
jumps ahead of any queued parse results, and the whole machine — buffer,
field, in-progress event, state and queue — is exactly what it was at the
moment the failure was observed. -/
theorem transport_error_immediate :
    (∀ (ε : Type) (m : Machine) (e : ε) (rest : List (SourcePoll ε)),
      pollLoop m (.fail e :: rest) = (.ready (.error (.Transport e)), ⟨m, rest⟩)) ∧
    (∀ (ε : Type) (t : Transformer ε) (e : ε) (rest : List (SourcePoll ε)),
      t.machine.results = [] → t.machine.state ≠ .Closed →
      t.source = .fail e :: rest →
      poll_next t = (.ready (.error (.Transport e)), ⟨t.machine, rest⟩)) := by
  constructor
  · intro ε m e rest
    rfl
  · intro ε t e rest h1 h2 h3
    unfold poll_next
    rw [h1]
    simp only [popBack]
    rw [if_neg h2, h3]
    rfl

/-- Witness for `transport_error_immediate` at a concrete transformer whose
source fails immediately. -/
theorem transport_error_immediate_witness :
    poll_next (⟨initMachine, [.fail (3 : Nat)]⟩ : Transformer Nat) =
      (.ready (.error (.Transport 3)), ⟨initMachine, []⟩) :=
  transport_error_immediate.2 Nat ⟨initMachine, [.fail 3]⟩ 3 [] rfl (by decide) rfl

theorem pollLoop_closedEnd {ε : Type} :
    ∀ (src : List (SourcePoll ε)) (m : Machine) (t2 : Transformer ε),
    pollLoop m src = (.closedEnd, t2) →
    t2.machine.state = .Closed ∧ t2.machine.results = [] := by
  intro src
  induction src with
  | nil =>
    intro m t2 h
    cases hp : popBack (closeOnExhaust m).results with
    | none =>
      unfold pollLoop at h
      rw [hp] at h
      cases h
      exact ⟨closeOnExhaust_state m, popBack_eq_none hp⟩
    | some pr =>
      obtain ⟨r, rs⟩ := pr
      unfold pollLoop at h
      rw [hp] at h
      simp at h
  | cons s rest ih =>
    intro m t2 h
    cases s with
    | pending =>
      unfold pollLoop at h
      cases hp : popBack m.results with
      | none => rw [hp] at h; simp at h
      | some pr => obtain ⟨x, rs⟩ := pr; rw [hp] at h; simp at h
    | done =>
      unfold pollLoop at h
      cases hp : popBack (closeOnExhaust m).results with
      | none =>
        rw [hp] at h
        cases h
        exact ⟨closeOnExhaust_state m, popBack_eq_none hp⟩
      | some pr => obtain ⟨x, rs⟩ := pr; rw [hp] at h; simp at h
    | fail e =>
      unfold pollLoop at h
      simp at h
    | chunk c =>
      unfold pollLoop at h
      exact ih (processBytes m c) t2 h

/-- C10: a pull that signals end-of-stream leaves the machine closed with an
empty queue, and from then on every pull signals end-of-stream again without
touching the source (the transformer is returned unchanged). -/
theorem end_of_stream_terminal {ε : Type} (t t2 : Transformer ε)
    (h : poll_next t = (.closedEnd, t2)) :
    t2.machine.state = .Closed ∧ t2.machine.results = [] ∧
      poll_next t2 = (.closedEnd, t2) := by
  have key : t2.machine.state = .Closed ∧ t2.machine.results = [] := by
    unfold poll_next at h
    cases hp : popBack t.machine.results with
    | some pr =>
      obtain ⟨x, rs⟩ := pr
      rw [hp] at h
      simp at h
    | none =>
      rw [hp] at h
      by_cases hc : t.machine.state = State.Closed
      · rw [if_pos hc] at h
        cases h
        exact ⟨hc, popBack_eq_none hp⟩
      · rw [if_neg hc] at h
        exact pollLoop_closedEnd t.source t.machine t2 h
  obtain ⟨h1, h2⟩ := key
  refine ⟨h1, h2, ?_⟩
  unfold poll_next
  rw [h2]
  simp only [popBack]
  rw [if_pos h1]

/-- Witness for `end_of_stream_terminal` at a concrete transformer whose
source is exhausted from the start. -/
theorem end_of_stream_terminal_witness :
    ({ initMachine with state := State.Closed } : Machine).state = State.Closed ∧
    ({ initMachine with state := State.Closed } : Machine).results = [] ∧
    poll_next (⟨{ initMachine with state := State.Closed }, []⟩ : Transformer Nat) =
      (.closedEnd, ⟨{ initMachine with state := State.Closed }, []⟩) :=
  end_of_stream_terminal (⟨initMachine, [.done]⟩ : Transformer Nat)
    ⟨{ initMachine with state := State.Closed }, []⟩ (by decide)

/-- C8 counterexample: with the source scripted to deliver one chunk holding a
complete message and then a transport failure, the very first pull returns the
transport failure while the parsed event is still sitting in the queue — so
after feeding a chunk the loop requests more input from the source instead of
first popping and returning the oldest queued entry, contrary to the claim. -/
theorem drain_before_next_chunk_counterexample :
    poll_next (⟨initMachine,
        [.chunk (asciiBytes "data:x\n\n"), .fail (7 : Nat)]⟩ : Transformer Nat) =
      (.ready (.error (.Transport 7)),
        ⟨{ initMachine with results := [.ok { data := asciiBytes "x" }] }, []⟩) := by
  decide

/-- C8 amended: after a chunk's bytes are fed through the state machine the
loop immediately polls the source again without draining the queue; queued
results are surfaced one per pull (oldest first, source untouched) only once
the source stops delivering chunks. -/
theorem chunk_loop_amended :
    (∀ (ε : Type) (m : Machine) (c : Bytes) (rest : List (SourcePoll ε)),
      pollLoop m (.chunk c :: rest) = pollLoop (processBytes m c) rest) ∧
    (∀ (ε : Type) (m : Machine) (r : Except ParseError Event)
      (rs : List (Except ParseError Event)) (src : List (SourcePoll ε)),
      poll_next (⟨{ m with results := r :: rs }, src⟩ : Transformer ε) =
        (.ready (toItem r), ⟨{ m with results := rs }, src⟩)) := by
  constructor
  · intro ε m c rest
    rfl
  · intro ε m r rs src
    rfl

/-- C3 counterexample: two consecutive newlines make the state machine enqueue
the in-progress event even though it is completely empty, and the driving loop
surfaces it to the caller unfiltered: the output contains the default event. -/
theorem empty_event_surfaced_counterexample :
    run (⟨initMachine, [.chunk [10, 10], .done]⟩ : Transformer Unit) =
      [Except.ok ({} : Event)] := by
  have h := run_chunks_eq (ε := Unit) [[10, 10]]
  exact h.trans (by decide)

/-- C3 amended: the only emptiness filtering is the terminal flush — on source
exhaustion an empty in-progress event is not enqueued — while a newline seen
in the after-blank-line state enqueues the in-progress event unconditionally,
empty or not, and nothing downstream filters it. -/
theorem empty_event_filter_amended :
    (∀ m : Machine, m.event = {} → closeOnExhaust m = { m with state := State.Closed }) ∧
    (∀ m : Machine, m.state = .NextLine →
      step m 10 = { m with results := pushFront m.results (.ok m.event), event := {}, buffer := [], field := none, state := .ReadingField }) := by
  constructor
  · intro m hm
    simp [closeOnExhaust, Event.is_empty, hm]
  · intro m hm
    simp [step, hm]

/-- Witness for `empty_event_filter_amended` at the initial machine (whose
event is empty) and at the after-blank-line state. -/
theorem empty_event_filter_amended_witness :
    closeOnExhaust initMachine = { initMachine with state := State.Closed } ∧
    step { initMachine with state := State.NextLine } 10 =
      { initMachine with results := [Except.ok ({} : Event)], state := State.ReadingField } := by
  constructor
  · exact empty_event_filter_amended.1 initMachine rfl
  · exact (empty_event_filter_amended.2 { initMachine with state := State.NextLine } rfl).trans
      (by decide)

/-- C2, evaluated at the failing input: the code appends each `data:` value's
raw bytes to the payload with no separator at all (and without stripping the
space after the colon), so `data: line1` then `data: line2` produces the
payload `" line1 line2"`, not `"line1" + "\n" + "line2"` as the claim (and the
repository's own test) require. -/
theorem data_concat_failing_input_eval :
    (run (⟨initMachine, [.chunk (asciiBytes "data: line1\ndata: line2\n\n"), .done]⟩ :
        Transformer Unit) =
      [Except.ok ({ data := asciiBytes " line1 line2" } : Event)]) ∧
    (∀ (e : Event) (v : Bytes),
      e.set_field (some .data) v = .ok { e with data := e.data ++ v }) := by
  constructor
  · have h := run_chunks_eq (ε := Unit) [asciiBytes "data: line1\ndata: line2\n\n"]
    exact h.trans (by decide)
  · intro e v
    rfl

set_option maxRecDepth 8000 in
/-- C4, evaluated at the exact test input: because `\r` is an ordinary byte
(never a line terminator) and neither the space after the colon nor a data
separator is handled, the code yields the two `EmptyField` errors followed by
one event with name `" my-event\r"`, payload `"line1 line2"`, id `" my-id"`
and no retry (the `retry:42` text is swallowed into the preceding
leading-colon line) — not the event the claim and the repository's own test
assert. -/
theorem end_to_end_failing_input_eval :
    run (⟨initMachine,
        [.chunk (asciiBytes "event: my-event\r\ndata:line1\ndata: line2\n:\nid: my-id\n:should be ignored too\rretry:42\n"),
         .done]⟩ : Transformer Unit) =
      [Except.error (Error.Parse .EmptyField),
       Except.error (Error.Parse .EmptyField),
       Except.ok { event := some (asciiBytes " my-event\r"),
                   data := asciiBytes "line1 line2",
                   id := some (asciiBytes " my-id"),
                   retryMs := none }] := by
  have h := run_chunks_eq (ε := Unit)
    [asciiBytes "event: my-event\r\ndata:line1\ndata: line2\n:\nid: my-id\n:should be ignored too\rretry:42\n"]
  exact h.trans (by decide)

/-- C6 counterexample: `retry: 42` followed by a blank line does not set the
retry duration at all — the unstripped value `" 42"` fails `u64` parsing, so
the output is an `InvalidRetry " 42"` error followed by an event whose retry
field is unset (`none`), refuting the claimed 42-millisecond result. -/
theorem retry_space_counterexample :
    run (⟨initMachine, [.chunk (asciiBytes "retry: 42\n\n"), .done]⟩ : Transformer Unit) =
      [Except.error (Error.Parse (ParseError.InvalidRetry (asciiBytes " 42"))),
       Except.ok ({} : Event)] := by
  have h := run_chunks_eq (ε := Unit) [asciiBytes "retry: 42\n\n"]
  exact h.trans (by decide)

/-- C6 amended: `retry:42` (no space after the colon) followed by a blank line
yields an event whose retry duration is exactly 42 milliseconds; in general a
retry value that is valid text and parses as an unsigned 64-bit integer `n`
sets the retry field to `n` milliseconds, and any decoding or parsing failure
produces an `InvalidRetry` error carrying the offending bytes. -/
theorem retry_parse_amended :
    (run (⟨initMachine, [.chunk (asciiBytes "retry:42\n\n"), .done]⟩ : Transformer Unit) =
      [Except.ok ({ retryMs := some 42 } : Event)]) ∧
    (∀ (e : Event) (v : Bytes) (n : Nat), utf8Valid v = true → parseU64 v = some n →
      e.set_field (some .retry) v = .ok { e with retryMs := some n }) ∧
    (∀ (e : Event) (v : Bytes), utf8Valid v = false ∨ parseU64 v = none →
      e.set_field (some .retry) v = .error (.InvalidRetry v)) := by
  refine ⟨?_, ?_, ?_⟩
  · have h := run_chunks_eq (ε := Unit) [asciiBytes "retry:42\n\n"]
    exact h.trans (by decide)
  · intro e v n h1 h2
    simp [Event.set_field, h1, h2]
  · intro e v h
    rcases h with h | h
    · simp [Event.set_field, h]
    · by_cases hu : utf8Valid v = true
      · simp [Event.set_field, hu, h]
      · simp [Event.set_field, hu]

/-- Witness for `retry_parse_amended` at concrete retry values: `"42"` parses
to 42 milliseconds, `" 42"` fails with `InvalidRetry`. -/
theorem retry_parse_amended_witness :
    Event.set_field {} (some .retry) (asciiBytes "42") =
      .ok ({ retryMs := some 42 } : Event) ∧
    Event.set_field {} (some .retry) (asciiBytes " 42") =
      .error (.InvalidRetry (asciiBytes " 42")) := by
  constructor
  · exact retry_parse_amended.2.1 {} (asciiBytes "42") 42 (by decide) (by decide)
  · exact retry_parse_amended.2.2 {} (asciiBytes " 42") (Or.inr (by decide))

theorem step_state_ne_closed (m : Machine) (b : Nat) (h : m.state ≠ State.Closed) :
    (step m b).state ≠ State.Closed := by
  unfold step
  by_cases h10 : b = 10
  · rw [if_pos h10]
    cases hs : m.state with
    | ReadingField => simp
    | ReadingValue =>
      cases hsf : m.event.set_field m.field m.buffer with
      | ok e => simp
      | error err => simp
    | NextLine => simp
    | Closed => exact absurd hs h
  · rw [if_neg h10]
    by_cases h58 : b = 58
    · rw [if_pos h58]
      cases hs : m.state with
      | ReadingField =>
        cases hf : Field.from_bytes m.buffer with
        | ok f => simp
        | error e => simp
      | ReadingValue => simp [hs] at h; simp [h]
      | NextLine => simp
      | Closed => exact absurd hs h
    · rw [if_neg h58]
      by_cases hn : m.state = State.NextLine
      · simp [hn]
      · simpa [hn] using h

theorem processBytes_state_ne_closed :
    ∀ (bs : Bytes) (m : Machine), m.state ≠ State.Closed →
    (processBytes m bs).state ≠ State.Closed := by
  intro bs
  induction bs with
  | nil => intro m h; exact h
  | cons b bs ih => intro m h; exact ih (step m b) (step_state_ne_closed m b h)

/-- The recovery suffix used in `parse_errors_nonfatal`: a line terminator
closing whatever line was in progress, a blank line flushing whatever event
was in progress, then one complete well-formed `data:ok` message. -/
def recoveryBytes : Bytes := asciiBytes "\n\ndata:ok\n\n"

/-- The event carried by the well-formed message inside `recoveryBytes`. -/
def okEvent : Event := { data := asciiBytes "ok" }

/-- Feeding two newlines from any open state leaves a fresh machine (empty
buffer, no field, default event) in `ReadingField` or `NextLine`, having only
appended some entries to the queue. -/
theorem processBytes_two_newlines (m : Machine) (h : m.state ≠ State.Closed) :
    ∃ (junk : List (Except ParseError Event)) (S : State),
      (S = State.ReadingField ∨ S = State.NextLine) ∧
      processBytes m [10, 10] =
        { buffer := [], field := none, event := {}, state := S, results := m.results ++ junk } := by
  cases hs : m.state with
  | Closed => exact absurd hs h
  | ReadingField =>
    by_cases hb : m.buffer = []
    · exact ⟨[.ok m.event], .ReadingField, Or.inl rfl,
        by simp [processBytes, step, hs, hb, pushFront]⟩
    · exact ⟨[.error (.UnexpectedEndOfLine m.buffer), .ok m.event], .ReadingField, Or.inl rfl,
        by simp [processBytes, step, hs, hb, pushFront]⟩
  | ReadingValue =>
    cases hsf : m.event.set_field m.field m.buffer with
    | ok e =>
      exact ⟨[.ok e], .ReadingField, Or.inl rfl,
        by simp [processBytes, step, hs, hsf, pushFront]⟩
    | error err =>
      exact ⟨[.error err, .ok m.event], .ReadingField, Or.inl rfl,
        by simp [processBytes, step, hs, hsf, pushFront]⟩
  | NextLine =>
    exact ⟨[.ok m.event], .NextLine, Or.inr rfl,
      by simp [processBytes, step, hs, pushFront]⟩

/-- From a fresh machine in either `ReadingField` or `NextLine`, the message
`data:ok` followed by a blank line parses completely and enqueues exactly
`okEvent`, returning to a fresh `ReadingField` machine. -/
theorem processBytes_okmsg (rs : List (Except ParseError Event)) (S : State)
    (h : S = State.ReadingField ∨ S = State.NextLine) :
    processBytes { buffer := [], field := none, event := {}, state := S, results := rs }
        (asciiBytes "data:ok\n\n") =
      { buffer := [], field := none, event := {}, state := State.ReadingField,
        results := rs ++ [.ok okEvent] } := by
  have hb : asciiBytes "data:ok\n\n" = [100, 97, 116, 97, 58, 111, 107, 10, 10] := by decide
  have hf : Field.from_bytes [100, 97, 116, 97] = .ok .data := by decide
  have ho : okEvent = { data := [111, 107] } := by decide
  rcases h with h | h <;> subst h <;>
    simp [hb, ho, processBytes, step, hf, Event.set_field, pushFront]

/-- C7: parse errors never terminate the stream: byte processing never moves
the state to `Closed` (only source exhaustion does); every queued entry —
parse errors included — surfaces as exactly one output item; and after any
byte prefix whatsoever, a subsequent well-formed message is still parsed and
emitted. -/
theorem parse_errors_nonfatal :
    (∀ (m : Machine) (bs : Bytes), m.state ≠ State.Closed →
      (processBytes m bs).state ≠ State.Closed) ∧
    (∀ bs : Bytes, ∃ pre,
      run (⟨initMachine, [.chunk (bs ++ recoveryBytes), .done]⟩ : Transformer Unit) =
        pre ++ [Except.ok okEvent]) ∧
    (∀ bs : Bytes, run (⟨initMachine, [.chunk bs, .done]⟩ : Transformer Unit) =
      (closeOnExhaust (processBytes initMachine bs)).results.map toItem) := by
  refine ⟨?_, ?_, ?_⟩
  · intro m bs h
    exact processBytes_state_ne_closed bs m h
  · intro bs
    have h := run_chunks_eq (ε := Unit) [bs ++ recoveryBytes]
    simp only [List.map_cons, List.map_nil, List.cons_append, List.nil_append,
      List.flatten_cons, List.flatten_nil, List.append_nil] at h
    have hsplit : processBytes initMachine (bs ++ recoveryBytes) =
        processBytes (processBytes initMachine bs) recoveryBytes := by
      simp [processBytes, List.foldl_append]
    have hm : (processBytes initMachine bs).state ≠ State.Closed :=
      processBytes_state_ne_closed bs initMachine (by decide)
    obtain ⟨junk, S, hS, hsep⟩ := processBytes_two_newlines (processBytes initMachine bs) hm
    have hrec : processBytes (processBytes initMachine bs) recoveryBytes =
        { buffer := [], field := none, event := {}, state := State.ReadingField,
          results := ((processBytes initMachine bs).results ++ junk) ++ [.ok okEvent] } := by
      have h2 : recoveryBytes = [10, 10] ++ asciiBytes "data:ok\n\n" := rfl
      rw [h2]
      rw [show processBytes (processBytes initMachine bs) ([10, 10] ++ asciiBytes "data:ok\n\n") =
          processBytes (processBytes (processBytes initMachine bs) [10, 10])
            (asciiBytes "data:ok\n\n") from by simp [processBytes, List.foldl_append]]
      rw [hsep]
      exact processBytes_okmsg _ S hS
    refine ⟨((processBytes initMachine bs).results ++ junk).map toItem, ?_⟩
    rw [h, hsplit, hrec]
    simp [closeOnExhaust, Event.is_empty]
  · intro bs
    have h := run_chunks_eq (ε := Unit) [bs]
    simpa using h

/-- Witness for `parse_errors_nonfatal`: processing a lone newline from the
initial machine leaves the state open. -/
theorem parse_errors_nonfatal_witness :
    (processBytes initMachine [10]).state ≠ State.Closed :=
  parse_errors_nonfatal.1 initMachine [10] (by decide)

end EventsourceStream
